import Mathlib

/-!
Verification of the MBTI quiz application's core decision logic:
the Scoring Engine (`calculateResults`), the Phone Canonicalizer
(`normalizePhoneNumber`), the Message Tag Codec (the inline encode of
`rateMessage` / `saveChatMessage` and the inline decode of
`getChatHistory`), the rating reconciler (`rateMessage`), the Flow
Controller handlers (`handleOptionSelect`, `handleNextStep`,
`handlePrevStep`), and the commit / remote-save paths (`finishQuiz`,
`saveResultToSpreadsheet`).

Strings are modelled as `List Char` wherever string algorithms are
involved; `String` wrappers mirror the TypeScript signatures.
TypeScript numbers are modelled as `Int` (scoring) or `Nat` (indices).
-/

/-! ## Scoring Engine (src/unnamed/part_000, `calculateResults`) -/

/-- The TypeScript `Answers` record: a partial map from question id to the
recorded magnitude. -/
def Answers : Type := Nat → Option Int

/-- The `ScoringResult` record produced by `calculateResults`. -/
structure ScoringResult where
  EI : Int
  SN : Int
  FT : Int
  JP : Int
  type : String
deriving DecidableEq, Repr

/-- Embedding of `calculateResults` (part_000 lines 327-338): `getVal` is
`currentAnswers[id] ?? 3`; each axis is the literal signed sum from the
source; letters are chosen by the `> 24` comparisons and concatenated in
order EI, SN, FT, JP. -/
def calculateResults (currentAnswers : Answers) : ScoringResult :=
  let getVal : Nat → Int := fun id => (currentAnswers id).getD 3
  let ieValue := 30 - getVal 3 - getVal 7 - getVal 11 + getVal 15 - getVal 19 + getVal 23 + getVal 27 - getVal 31
  let snValue := 12 + getVal 4 + getVal 8 + getVal 12 + getVal 16 + getVal 20 - getVal 24 - getVal 28 + getVal 32
  let ftValue := 30 - getVal 2 + getVal 6 + getVal 10 - getVal 14 - getVal 18 + getVal 22 - getVal 26 - getVal 30
  let jpValue := 18 + getVal 1 + getVal 5 - getVal 9 + getVal 13 - getVal 17 + getVal 21 - getVal 25 + getVal 29
  let ei := if ieValue > 24 then "E" else "I"
  let sn := if snValue > 24 then "N" else "S"
  let ft := if ftValue > 24 then "T" else "F"
  let jp := if jpValue > 24 then "P" else "J"
  { EI := ieValue, SN := snValue, FT := ftValue, JP := jpValue,
    type := ei ++ sn ++ ft ++ jp }

/-- Spec-side restatement of the Scoring Engine, written from the claim's
words: `aN` is the magnitude for item N or 3 when absent, the four raw
axis values are the stated linear combinations, each axis value strictly
greater than 24 selects `E`/`N`/`T`/`P` and otherwise `I`/`S`/`F`/`J`, and
the code is the four letters in axis order EI, SN, FT, JP. -/
def computeTypeSpec (answers : Answers) : ScoringResult :=
  let a : Nat → Int := fun n => (answers n).getD 3
  let eiRaw := 30 - a 3 - a 7 - a 11 + a 15 - a 19 + a 23 + a 27 - a 31
  let snRaw := 12 + a 4 + a 8 + a 12 + a 16 + a 20 - a 24 - a 28 + a 32
  let ftRaw := 30 - a 2 + a 6 + a 10 - a 14 - a 18 + a 22 - a 26 - a 30
  let jpRaw := 18 + a 1 + a 5 - a 9 + a 13 - a 17 + a 21 - a 25 + a 29
  let letter1 : Char := if eiRaw > 24 then 'E' else 'I'
  let letter2 : Char := if snRaw > 24 then 'N' else 'S'
  let letter3 : Char := if ftRaw > 24 then 'T' else 'F'
  let letter4 : Char := if jpRaw > 24 then 'P' else 'J'
  { EI := eiRaw, SN := snRaw, FT := ftRaw, JP := jpRaw,
    type := String.mk [letter1, letter2, letter3, letter4] }

/-! ## Phone Canonicalizer (src/services/dataService.ts, `normalizePhoneNumber`) -/

/-- Embedding of `normalizePhoneNumber` (dataService.ts lines 7-17).
`!phone` on a string is truth-y exactly for `""`; `replace(/\D/g, '')` is
a filter keeping ASCII digits; `startsWith('8')`, `'7' + substring(1)`,
`'7' + cleaned` and `slice(-11)` are transcribed on the character list. -/
def normalizePhoneNumber (phone : String) : String :=
  if phone = "" then "00000000000"
  else
    let cleaned := phone.data.filter Char.isDigit
    if cleaned.length = 0 then "00000000000"
    else
      let c2 :=
        if cleaned.head? = some '8' then '7' :: cleaned.tail
        else if cleaned.length = 10 then '7' :: cleaned
        else cleaned
      if c2.length > 11 then String.mk (c2.drop (c2.length - 11)) else String.mk c2

/-- Spec-side restatement of the canonicalizer, written from the claim's
words: strip all non-digit characters; zero digits map to the sentinel
`00000000000`; a digit string with leading `8` has that `8` rewritten to
`7`; otherwise a 10-digit result is prefixed with `7`; a result longer
than 11 characters is kept as its last 11 digits. -/
def canonicalizeSpec (raw : String) : String :=
  let digits := raw.data.filter Char.isDigit
  if digits = [] then "00000000000"
  else
    let rewritten :=
      if digits.head? = some '8' then '7' :: digits.tail
      else if digits.length = 10 then '7' :: digits
      else digits
    String.mk (if rewritten.length > 11 then rewritten.drop (rewritten.length - 11) else rewritten)

/-- C1: the Scoring Engine returns exactly the axis values and code stated
by the spec (the four signed linear combinations with default magnitude 3,
the strict `> 24` letter choice `E`/`N`/`T`/`P` versus `I`/`S`/`F`/`J`,
concatenated in axis order EI, SN, FT, JP); it is a total function, hence
deterministic. -/
theorem calculateResults_eq_spec :
    ∀ answers : Answers, calculateResults answers = computeTypeSpec answers := by
  intro answers
  simp only [calculateResults, computeTypeSpec, ScoringResult.mk.injEq]
  refine ⟨trivial, trivial, trivial, trivial, ?_⟩
  split <;> split <;> split <;> split <;> rfl

/-- C2: the canonicalizer agrees with the spec's description on every
input (strip non-digits, sentinel on zero digits, leading-8 rewrite,
10-digit prefix, keep last 11 when longer), and on the spec's concrete
test pair both `"8 915 123 45 67"` and `"+7 (915) 123-45-67"` canonicalize
to the same 11-digit string `"79151234567"` starting with `7`. -/
theorem normalizePhoneNumber_eq_spec :
    (∀ raw : String, normalizePhoneNumber raw = canonicalizeSpec raw) ∧
      normalizePhoneNumber "8 915 123 45 67" = normalizePhoneNumber "+7 (915) 123-45-67" ∧
      normalizePhoneNumber "8 915 123 45 67" = "79151234567" := by
  refine ⟨?_, by decide, by decide⟩
  intro raw
  by_cases h : raw = ""
  · subst h; decide
  · unfold normalizePhoneNumber canonicalizeSpec
    rw [if_neg h]
    by_cases h0 : raw.data.filter Char.isDigit = []
    · simp [h0]
    · have hlen : ¬(raw.data.filter Char.isDigit).length = 0 := by
        simpa [List.length_eq_zero] using h0
      rw [if_neg hlen, if_neg h0]
      dsimp only
      exact (apply_ite String.mk _ _ _).symm

/-! ## Message Tag Codec
(inline in src/services/dataService.ts: decode in `getChatHistory` lines
250-277, encode in `rateMessage` lines 343-356 and `saveChatMessage`
lines 215-219) -/

/-- A user rating; the persisted `neutral` default corresponds to `none`
at this level (decode leaves `rating` undefined for a neutral tag). -/
inductive Rating
  | like
  | dislike
deriving DecidableEq, Repr

/-- The whitespace class of the JavaScript regex `\s` and `trimEnd`,
restricted to the ASCII whitespace characters. -/
def isWsChar (c : Char) : Bool :=
  c == ' ' || c == '\t' || c == '\n' || c == '\r' || c == '\x0b' || c == '\x0c'

/-- JavaScript `String.prototype.trimEnd` on a character list. -/
def trimEnd (s : List Char) : List Char :=
  (s.reverse.dropWhile isWsChar).reverse

/-- The bracket tag `[TAG:like]`. -/
def tagLike : List Char := "[TAG:like]".data

/-- The bracket tag `[TAG:dislike]`. -/
def tagDislike : List Char := "[TAG:dislike]".data

/-- The bracket tag `[TAG:neutral]`. -/
def tagNeutral : List Char := "[TAG:neutral]".data

/-- The suffix appended by `rateMessage` (dataService.ts lines 350-352):
`[TAG:neutral]` by default, overridden to `[TAG:like]` / `[TAG:dislike]`
when a rating is present. -/
def tagFor : Option Rating → List Char
  | some Rating.like => tagLike
  | some Rating.dislike => tagDislike
  | none => tagNeutral

/-- The match of the anchored regex `\[TAG:(like|dislike|neutral)\]\s*$`:
after discarding the run of trailing whitespace the string must end in
one of the three bracket tags. Returns the decoded rating (`none` for
`neutral`) and the text standing before the `[` of the tag, which is what
`replace` with this regex leaves behind. -/
def matchTrailingTag (s : List Char) : Option (Option Rating × List Char) :=
  let t := trimEnd s
  if tagLike.isSuffixOf t then some (some Rating.like, t.take (t.length - tagLike.length))
  else if tagDislike.isSuffixOf t then some (some Rating.dislike, t.take (t.length - tagDislike.length))
  else if tagNeutral.isSuffixOf t then some (none, t.take (t.length - tagNeutral.length))
  else none

/-- The legacy marker `" #liked"`. -/
def liked : List Char := " #liked".data

/-- The legacy marker `" #disliked"`. -/
def disliked : List Char := " #disliked".data

/-- The legacy marker `" #neutral"`. -/
def neutralMark : List Char := " #neutral".data

/-- JavaScript `String.prototype.includes`: `pat` occurs somewhere in the
string. -/
def hasSub (pat : List Char) : List Char → Bool
  | [] => pat.isPrefixOf []
  | c :: rest => pat.isPrefixOf (c :: rest) || hasSub pat rest

/-- Fuel-indexed worker for `stripLegacy`; structural recursion on the
fuel keeps the function kernel-reducible. The fuel never runs out when it
starts at the length of the list, since each step consumes at least one
character. -/
def stripLegacyFuel : Nat → List Char → List Char
  | 0, s => s
  | _ + 1, [] => []
  | fuel + 1, c :: rest =>
    if liked.isPrefixOf (c :: rest) then stripLegacyFuel fuel (rest.drop 6)
    else if disliked.isPrefixOf (c :: rest) then stripLegacyFuel fuel (rest.drop 9)
    else if neutralMark.isPrefixOf (c :: rest) then stripLegacyFuel fuel (rest.drop 8)
    else c :: stripLegacyFuel fuel rest

/-- One global replace of `/ #liked| #disliked| #neutral/g` by the empty
string: scan left to right, remove each non-overlapping occurrence, and
continue after it (the marker lengths are 7, 10 and 9). -/
def stripLegacy (s : List Char) : List Char :=
  stripLegacyFuel s.length s

theorem stripLegacyFuel_congr :
    ∀ (fuel : Nat) (s : List Char), s.length ≤ fuel → stripLegacyFuel fuel s = stripLegacy s := by
  intro fuel
  induction fuel using Nat.strong_induction_on with
  | _ f ih =>
    intro s hs
    cases f with
    | zero =>
      rw [List.length_eq_zero.mp (Nat.le_zero.mp hs)]
      rfl
    | succ f' =>
      cases s with
      | nil => rfl
      | cons c rest =>
        have hr : rest.length ≤ f' := by
          simp only [List.length_cons] at hs
          omega
        have hdk : ∀ k : Nat, (rest.drop k).length ≤ rest.length := fun k => by
          rw [List.length_drop]
          exact Nat.sub_le rest.length k
        show stripLegacyFuel (f' + 1) (c :: rest) = stripLegacyFuel (rest.length + 1) (c :: rest)
        simp only [stripLegacyFuel]
        rw [ih f' (Nat.lt_succ_self f') (rest.drop 6) (le_trans (hdk 6) hr),
          ih f' (Nat.lt_succ_self f') (rest.drop 9) (le_trans (hdk 9) hr),
          ih f' (Nat.lt_succ_self f') (rest.drop 8) (le_trans (hdk 8) hr),
          ih f' (Nat.lt_succ_self f') rest hr,
          ih rest.length (Nat.lt_succ_of_le hr) (rest.drop 6) (hdk 6),
          ih rest.length (Nat.lt_succ_of_le hr) (rest.drop 9) (hdk 9),
          ih rest.length (Nat.lt_succ_of_le hr) (rest.drop 8) (hdk 8),
          ih rest.length (Nat.lt_succ_of_le hr) rest le_rfl]

theorem stripLegacy_cons (c : Char) (rest : List Char) :
    stripLegacy (c :: rest) =
      if liked.isPrefixOf (c :: rest) then stripLegacy (rest.drop 6)
      else if disliked.isPrefixOf (c :: rest) then stripLegacy (rest.drop 9)
      else if neutralMark.isPrefixOf (c :: rest) then stripLegacy (rest.drop 8)
      else c :: stripLegacy rest := by
  show stripLegacyFuel (rest.length + 1) (c :: rest) = _
  simp only [stripLegacyFuel]
  have hd : ∀ k, (rest.drop k).length ≤ rest.length := by
    intro k; simp [List.length_drop]
  rw [stripLegacyFuel_congr rest.length (rest.drop 6) (hd 6),
    stripLegacyFuel_congr rest.length (rest.drop 9) (hd 9),
    stripLegacyFuel_congr rest.length (rest.drop 8) (hd 8)]
  rfl

/-- Decode, as performed on each row by `getChatHistory` (dataService.ts
lines 250-277): a trailing bracket tag decides the rating (`neutral`
gives no rating) and is removed; otherwise the legacy markers decide the
rating by `includes` (checked on the original text, `" #liked"` first)
and all marker occurrences are removed; trailing whitespace is trimmed
at the end. Returns (display text, rating). -/
def stripTag (stored : List Char) : List Char × Option Rating :=
  match matchTrailingTag stored with
  | some (r, pre) => (trimEnd pre, r)
  | none =>
    let r : Option Rating :=
      if hasSub liked stored then some Rating.like
      else if hasSub disliked stored then some Rating.dislike
      else none
    (trimEnd (stripLegacy stored), r)

/-- The single `replace` of the trailing-tag regex used before re-encoding
(dataService.ts lines 318 and 345): removes the trailing bracket tag when
present, otherwise leaves the text unchanged. -/
def dropTrailingTagOnce (c : List Char) : List Char :=
  match matchTrailingTag c with
  | some (_, pre) => pre
  | none => c

/-- Encode, as performed by `rateMessage` steps 2-3 (dataService.ts lines
343-356): strip a trailing bracket tag, strip all legacy markers, trim
trailing whitespace, then append exactly one bracket tag with no
separating whitespace. -/
def withTag (content : List Char) (r : Option Rating) : List Char :=
  trimEnd (stripLegacy (dropTrailingTagOnce content)) ++ tagFor r

/-- A string is tag-free when it carries no trailing bracket tag and no
occurrence of a legacy marker. -/
def tagFree (t : List Char) : Bool :=
  (matchTrailingTag t).isNone && !hasSub liked t && !hasSub disliked t && !hasSub neutralMark t

/-! ### Supporting lemmas for the codec -/

theorem isPrefixOf_append_cons_of_notMem (pat : List Char) (c : Char) (hc : c ∉ pat) :
    ∀ t v : List Char, pat.isPrefixOf (t ++ c :: v) = pat.isPrefixOf t := by
  induction pat with
  | nil => intro t v; cases t <;> rfl
  | cons p ps ih =>
    intro t v
    cases t with
    | nil =>
      have hpc : (p == c) = false := by
        simp only [List.mem_cons, not_or] at hc
        exact beq_eq_false_iff_ne.mpr fun h => hc.1 h.symm
      simp [List.isPrefixOf, hpc]
    | cons a as =>
      have hc' : c ∉ ps := fun h => hc (List.mem_cons_of_mem _ h)
      simp [List.isPrefixOf, ih hc' as v]

theorem hasSub_append_cons_of_notMem (pat : List Char) (c : Char) (hc : c ∉ pat) :
    ∀ t v : List Char, hasSub pat (t ++ c :: v) = (hasSub pat t || hasSub pat (c :: v)) := by
  intro t v
  induction t with
  | nil =>
    cases pat with
    | nil => simp [hasSub, List.isPrefixOf]
    | cons p ps => simp [hasSub, List.isPrefixOf]
  | cons a t' ih =>
    have h1 : pat.isPrefixOf ((a :: t') ++ c :: v) = pat.isPrefixOf (a :: t') :=
      isPrefixOf_append_cons_of_notMem pat c hc (a :: t') v
    calc hasSub pat ((a :: t') ++ c :: v)
        = (pat.isPrefixOf ((a :: t') ++ c :: v) || hasSub pat (t' ++ c :: v)) := rfl
      _ = (pat.isPrefixOf (a :: t') || (hasSub pat t' || hasSub pat (c :: v))) := by
          rw [h1, ih]
      _ = (hasSub pat (a :: t') || hasSub pat (c :: v)) := by
          show _ = ((pat.isPrefixOf (a :: t') || hasSub pat t') || _)
          rw [Bool.or_assoc]

theorem hasSub_iff (pat : List Char) :
    ∀ s : List Char, hasSub pat s = true ↔ ∃ u v, s = u ++ pat ++ v := by
  intro s
  induction s with
  | nil =>
    simp only [hasSub, List.isPrefixOf_iff_prefix, List.prefix_nil]
    constructor
    · rintro rfl; exact ⟨[], [], rfl⟩
    · rintro ⟨u, v, h⟩
      rcases List.append_eq_nil.mp h.symm with ⟨h1, h2⟩
      exact (List.append_eq_nil.mp h1).2
  | cons a s' ih =>
    simp only [hasSub, Bool.or_eq_true, List.isPrefixOf_iff_prefix, ih]
    constructor
    · rintro (⟨v, hv⟩ | ⟨u, v, huv⟩)
      · exact ⟨[], v, by simp [hv]⟩
      · exact ⟨a :: u, v, by simp [huv]⟩
    · rintro ⟨u, v, huv⟩
      cases u with
      | nil => exact Or.inl ⟨v, by simpa using huv.symm⟩
      | cons x u' =>
        simp only [List.cons_append, List.cons.injEq] at huv
        exact Or.inr ⟨u', v, huv.2⟩

theorem hasSub_mono {pat t' t : List Char} (h : hasSub pat t' = true) (hp : t' <+: t) :
    hasSub pat t = true := by
  rcases (hasSub_iff pat t').mp h with ⟨u, v, rfl⟩
  rcases hp with ⟨w, rfl⟩
  exact (hasSub_iff pat _).mpr ⟨u, v ++ w, by simp⟩

theorem trimEnd_prefix_self (t : List Char) : trimEnd t <+: t := by
  have h := List.dropWhile_suffix (l := t.reverse) isWsChar
  have := List.reverse_prefix.mpr h
  simpa [trimEnd] using this

theorem hasSub_trimEnd_eq_false {pat t : List Char} (h : hasSub pat t = false) :
    hasSub pat (trimEnd t) = false := by
  by_contra hc
  rw [Bool.not_eq_false] at hc
  rw [hasSub_mono hc (trimEnd_prefix_self t)] at h
  cases h

theorem not_tagLike_suffix_append_tagDislike (u : List Char) : ¬ tagLike <:+ u ++ tagDislike := by
  intro h
  rw [List.suffix_iff_eq_drop] at h
  have hl : (u ++ tagDislike).length - tagLike.length = u.length + 3 := by
    simp [tagLike, tagDislike]
  rw [hl, List.drop_append 3] at h
  exact absurd h (by decide)

theorem not_tagLike_suffix_append_tagNeutral (u : List Char) : ¬ tagLike <:+ u ++ tagNeutral := by
  intro h
  rw [List.suffix_iff_eq_drop] at h
  have hl : (u ++ tagNeutral).length - tagLike.length = u.length + 3 := by
    simp [tagLike, tagNeutral]
  rw [hl, List.drop_append 3] at h
  exact absurd h (by decide)

theorem not_tagDislike_suffix_append_tagNeutral (u : List Char) : ¬ tagDislike <:+ u ++ tagNeutral := by
  intro h
  rw [List.suffix_iff_eq_drop] at h
  have hl : (u ++ tagNeutral).length - tagDislike.length = u.length + 0 := by
    simp [tagDislike, tagNeutral]
  rw [hl, List.drop_append 0] at h
  exact absurd h (by decide)

theorem trimEnd_append_last (u w : List Char) (c : Char) (hc : isWsChar c = false) :
    trimEnd (u ++ (w ++ [c])) = u ++ (w ++ [c]) := by
  simp [trimEnd, List.dropWhile_cons, hc]

theorem trimEnd_append_tagFor (u : List Char) (r : Option Rating) :
    trimEnd (u ++ tagFor r) = u ++ tagFor r := by
  have hc : isWsChar ']' = false := by decide
  cases r with
  | none =>
    have e : tagNeutral = "[TAG:neutral".data ++ [']'] := by decide
    rw [show tagFor none = tagNeutral from rfl, e]
    exact trimEnd_append_last u _ ']' hc
  | some rr =>
    cases rr with
    | like =>
      have e : tagLike = "[TAG:like".data ++ [']'] := by decide
      rw [show tagFor (some Rating.like) = tagLike from rfl, e]
      exact trimEnd_append_last u _ ']' hc
    | dislike =>
      have e : tagDislike = "[TAG:dislike".data ++ [']'] := by decide
      rw [show tagFor (some Rating.dislike) = tagDislike from rfl, e]
      exact trimEnd_append_last u _ ']' hc

theorem take_sub_append (u v : List Char) :
    (u ++ v).take ((u ++ v).length - v.length) = u := by
  have hl : (u ++ v).length - v.length = u.length := by simp
  rw [hl, List.take_left]

theorem matchTrailingTag_append_tagFor (u : List Char) (r : Option Rating) :
    matchTrailingTag (u ++ tagFor r) = some (r, u) := by
  unfold matchTrailingTag
  rw [trimEnd_append_tagFor]
  cases r with
  | none =>
    have hn1 : ¬ tagLike.isSuffixOf (u ++ tagFor none) = true := fun h =>
      not_tagLike_suffix_append_tagNeutral u (List.isSuffixOf_iff_suffix.mp h)
    have hn2 : ¬ tagDislike.isSuffixOf (u ++ tagFor none) = true := fun h =>
      not_tagDislike_suffix_append_tagNeutral u (List.isSuffixOf_iff_suffix.mp h)
    have hp : tagNeutral.isSuffixOf (u ++ tagFor none) = true :=
      List.isSuffixOf_iff_suffix.mpr (List.suffix_append u tagNeutral)
    rw [if_neg hn1, if_neg hn2, if_pos hp,
      show tagFor none = tagNeutral from rfl, take_sub_append]
  | some rr =>
    cases rr with
    | like =>
      have hp : tagLike.isSuffixOf (u ++ tagFor (some Rating.like)) = true :=
        List.isSuffixOf_iff_suffix.mpr (List.suffix_append u tagLike)
      rw [if_pos hp, show tagFor (some Rating.like) = tagLike from rfl, take_sub_append]
    | dislike =>
      have hn1 : ¬ tagLike.isSuffixOf (u ++ tagFor (some Rating.dislike)) = true := fun h =>
        not_tagLike_suffix_append_tagDislike u (List.isSuffixOf_iff_suffix.mp h)
      have hp : tagDislike.isSuffixOf (u ++ tagFor (some Rating.dislike)) = true :=
        List.isSuffixOf_iff_suffix.mpr (List.suffix_append u tagDislike)
      rw [if_neg hn1, if_pos hp,
        show tagFor (some Rating.dislike) = tagDislike from rfl, take_sub_append]

theorem stripLegacy_of_no_marker (t : List Char) (h1 : hasSub liked t = false)
    (h2 : hasSub disliked t = false) (h3 : hasSub neutralMark t = false) :
    stripLegacy t = t := by
  induction t with
  | nil => rfl
  | cons c rest ih =>
    rw [hasSub, Bool.or_eq_false_iff] at h1 h2 h3
    rw [stripLegacy_cons, if_neg (by simp [h1.1]), if_neg (by simp [h2.1]),
      if_neg (by simp [h3.1]), ih h1.2 h2.2 h3.2]

theorem withTag_eq_append_of_clean (t : List Char) (hfree : tagFree t = true)
    (htrim : trimEnd t = t) : ∀ r : Option Rating, withTag t r = t ++ tagFor r := by
  intro r
  rw [tagFree, Bool.and_eq_true, Bool.and_eq_true, Bool.and_eq_true] at hfree
  obtain ⟨⟨⟨hmt, hl⟩, hd⟩, hn⟩ := hfree
  rw [Bool.not_eq_true', ] at hl hd hn
  have hnone : matchTrailingTag t = none := by
    cases hm : matchTrailingTag t with
    | none => rfl
    | some p => rw [hm] at hmt; cases hmt
  rw [withTag, dropTrailingTagOnce, hnone, stripLegacy_of_no_marker t hl hd hn, htrim]

theorem stripTag_append_tagFor (u : List Char) (r : Option Rating) :
    stripTag (u ++ tagFor r) = (trimEnd u, r) := by
  rw [stripTag, matchTrailingTag_append_tagFor]

theorem withTag_withTag (t : List Char) (hfree : tagFree t = true) (htrim : trimEnd t = t)
    (r r' : Option Rating) : withTag (withTag t r) r' = withTag t r' := by
  rw [tagFree, Bool.and_eq_true, Bool.and_eq_true, Bool.and_eq_true] at hfree
  obtain ⟨⟨⟨hmt, hl⟩, hd⟩, hn⟩ := hfree
  rw [Bool.not_eq_true'] at hl hd hn
  have hnone : matchTrailingTag t = none := by
    cases hm : matchTrailingTag t with
    | none => rfl
    | some p => rw [hm] at hmt; cases hmt
  have hclean : trimEnd (stripLegacy (dropTrailingTagOnce t)) = t := by
    rw [dropTrailingTagOnce, hnone, stripLegacy_of_no_marker t hl hd hn, htrim]
  show trimEnd (stripLegacy (dropTrailingTagOnce (withTag t r))) ++ tagFor r' = withTag t r'
  rw [withTag, hclean, dropTrailingTagOnce, matchTrailingTag_append_tagFor,
    stripLegacy_of_no_marker t hl hd hn, htrim, withTag, hclean]

theorem foldl_withTag_of_clean (t : List Char) (hfree : tagFree t = true)
    (htrim : trimEnd t = t) :
    ∀ (rs : List (Option Rating)) (r : Option Rating),
      List.foldl withTag (withTag t r) rs = t ++ tagFor (rs.getLastD r) := by
  intro rs
  induction rs with
  | nil =>
    intro r
    rw [List.foldl_nil, withTag_eq_append_of_clean t hfree htrim r]
    rfl
  | cons r' rs' ih =>
    intro r
    rw [List.foldl_cons, withTag_withTag t hfree htrim r r', ih r', List.getLastD_cons]

/-- C3 counterexample: `"hi "` is tag-free, yet decoding its encoding with
rating `like` yields display text `"hi"`, not `"hi "` — the codec trims
the trailing whitespace, so the round-trip stated for every tag-free
string fails on strings ending in whitespace. -/
theorem tagCodec_roundTrip_cex :
    tagFree "hi ".data = true ∧
      (stripTag (withTag "hi ".data (some Rating.like))).1 ≠ "hi ".data := by
  decide

/-- C3 (amended): for every tag-free string with no trailing whitespace
and every rating in {like, dislike, none}, decoding the encoded form
yields the original display text and exactly the encoded rating (absent
for none/neutral); moreover re-encoding through arbitrarily many rating
changes keeps exactly one trailing bracket tag (the last rating's), so
tags never accumulate. -/
theorem tagCodec_roundTrip (t : List Char) (hfree : tagFree t = true)
    (htrim : trimEnd t = t) :
    (∀ r : Option Rating, stripTag (withTag t r) = (t, r)) ∧
      ∀ (r : Option Rating) (rs : List (Option Rating)),
        List.foldl withTag (withTag t r) rs = t ++ tagFor (rs.getLastD r) := by
  constructor
  · intro r
    rw [withTag_eq_append_of_clean t hfree htrim r, stripTag_append_tagFor, htrim]
  · intro r rs
    exact foldl_withTag_of_clean t hfree htrim rs r

/-- Witness for C3: the round-trip and the two-step no-accumulation
property evaluated on the concrete tag-free string `"hello"`. -/
theorem tagCodec_roundTrip_witness :
    stripTag (withTag "hello".data (some Rating.like)) = ("hello".data, some Rating.like) ∧
      List.foldl withTag (withTag "hello".data (some Rating.like))
          [some Rating.dislike, none]
        = "hello".data ++ tagFor none :=
  ⟨(tagCodec_roundTrip "hello".data (by decide) (by decide)).1 (some Rating.like),
    (tagCodec_roundTrip "hello".data (by decide) (by decide)).2 (some Rating.like)
      [some Rating.dislike, none]⟩

/-- C4 counterexample: the stored string `" # #likedliked"` carries no
trailing bracket tag, and one encode cycle on it produces
`" #liked[TAG:like]"`, which carries both a legacy marker and a bracket
tag — the single global replace recreated `" #liked"` by joining the text
around a removed occurrence. -/
theorem legacyCompat_cex :
    matchTrailingTag " # #likedliked".data = none ∧
      withTag " # #likedliked".data (some Rating.like) = " #liked[TAG:like]".data ∧
      hasSub liked (withTag " # #likedliked".data (some Rating.like)) = true ∧
      (matchTrailingTag (withTag " # #likedliked".data (some Rating.like))).isSome = true := by
  decide

/-- C4 (amended): for every stored string with no trailing bracket tag,
ending in `" #liked"` decodes to rating `like`, and the display text is
the single-pass removal of all legacy-marker occurrences followed by
trailing-whitespace trimming; after one encode cycle the stored content
ends in exactly one bracket tag and carries no legacy marker, provided
the single-pass removal on the original content leaves no marker (the
removal can otherwise recreate one by joining surrounding text). -/
theorem legacyCompat :
    (∀ s : List Char, matchTrailingTag s = none →
      (liked.isSuffixOf s = true → (stripTag s).2 = some Rating.like) ∧
        (stripTag s).1 = trimEnd (stripLegacy s)) ∧
      ∀ (s : List Char) (r : Option Rating),
        hasSub liked (stripLegacy (dropTrailingTagOnce s)) = false →
        hasSub disliked (stripLegacy (dropTrailingTagOnce s)) = false →
        hasSub neutralMark (stripLegacy (dropTrailingTagOnce s)) = false →
        hasSub liked (withTag s r) = false ∧
          hasSub disliked (withTag s r) = false ∧
          hasSub neutralMark (withTag s r) = false ∧
          matchTrailingTag (withTag s r)
            = some (r, trimEnd (stripLegacy (dropTrailingTagOnce s))) := by
  constructor
  · intro s hno
    constructor
    · intro hsuf
      rcases List.isSuffixOf_iff_suffix.mp hsuf with ⟨u, rfl⟩
      have hocc : hasSub liked (u ++ liked) = true :=
        (hasSub_iff liked (u ++ liked)).mpr ⟨u, [], by simp⟩
      rw [stripTag, hno]
      simp only [hocc, if_pos]
    · rw [stripTag, hno]
  · intro s r h1 h2 h3
    have h1t := hasSub_trimEnd_eq_false h1
    have h2t := hasSub_trimEnd_eq_false h2
    have h3t := hasSub_trimEnd_eq_false h3
    have hbr : '[' ∉ liked ∧ '[' ∉ disliked ∧ '[' ∉ neutralMark := by decide
    have htag : ∃ v : List Char, tagFor r = '[' :: v := by
      cases r with
      | none => exact ⟨"TAG:neutral]".data, by decide⟩
      | some rr =>
        cases rr with
        | like => exact ⟨"TAG:like]".data, by decide⟩
        | dislike => exact ⟨"TAG:dislike]".data, by decide⟩
    rcases htag with ⟨v, hv⟩
    have hin : ∀ pat : List Char, '[' ∉ pat →
        hasSub pat (trimEnd (stripLegacy (dropTrailingTagOnce s))) = false →
        hasSub pat ('[' :: v) = false → hasSub pat (withTag s r) = false := by
      intro pat hpat hmain hv2
      rw [withTag, hv, hasSub_append_cons_of_notMem pat '[' hpat, hmain, hv2]
      rfl
    refine ⟨hin liked hbr.1 h1t ?_, hin disliked hbr.2.1 h2t ?_,
      hin neutralMark hbr.2.2 h3t ?_, ?_⟩
    · rw [show ('[' :: v) = tagFor r from hv.symm]
      cases r with
      | none => decide
      | some rr => cases rr <;> decide
    · rw [show ('[' :: v) = tagFor r from hv.symm]
      cases r with
      | none => decide
      | some rr => cases rr <;> decide
    · rw [show ('[' :: v) = tagFor r from hv.symm]
      cases r with
      | none => decide
      | some rr => cases rr <;> decide
    · rw [withTag, matchTrailingTag_append_tagFor]

/-- Witness for C4: both halves of the amended statement evaluated on the
concrete stored strings `"good #liked"` (legacy decode) and `"good"`
(encode with a like rating). -/
theorem legacyCompat_witness :
    ((stripTag "good #liked".data).2 = some Rating.like ∧
        (stripTag "good #liked".data).1 = trimEnd (stripLegacy "good #liked".data)) ∧
      hasSub liked (withTag "good".data (some Rating.like)) = false ∧
        matchTrailingTag (withTag "good".data (some Rating.like))
          = some (some Rating.like, trimEnd (stripLegacy (dropTrailingTagOnce "good".data))) := by
  refine ⟨⟨(legacyCompat.1 "good #liked".data (by decide)).1 (by decide),
    (legacyCompat.1 "good #liked".data (by decide)).2⟩, ?_, ?_⟩
  · exact (legacyCompat.2 "good".data (some Rating.like) (by decide) (by decide) (by decide)).1
  · exact (legacyCompat.2 "good".data (some Rating.like) (by decide) (by decide) (by decide)).2.2.2

/-! ## Session Reconciler: `saveChatMessage` and `rateMessage`
(src/services/dataService.ts lines 211-232 and 299-372). The remote I/O
is abstracted: the functions below return the body of the write request
that would be issued (`none` when no write is performed), and take the
store's query responses as arguments. -/

/-- The TypeScript role union `'user' | 'model'` (the model role is the
assistant). -/
inductive Role
  | user
  | model
deriving DecidableEq, Repr

/-- The row written by `saveChatMessage`. -/
structure ChatPayload where
  phone : String
  role : Role
  content : List Char
deriving DecidableEq, Repr

/-- Embedding of `saveChatMessage` (dataService.ts lines 211-232): the
phone is canonicalized, the anonymous sentinel suppresses the write, and
for role `model` the literal suffix `[TAG:neutral]` is appended to the
content before persisting; the returned value is the body of the POST, or
`none` when no request is issued. -/
def saveChatMessage (phone : String) (role : Role) (content : List Char) :
    Option ChatPayload :=
  let cleanPhone := normalizePhoneNumber phone
  if cleanPhone = "00000000000" then none
  else
    let finalContent := if role = Role.model then content ++ tagNeutral else content
    some ⟨cleanPhone, role, finalContent⟩

/-- A chat row as returned by the store queries inside `rateMessage`. -/
structure ChatRow where
  id : Nat
  content : List Char
deriving DecidableEq, Repr

/-- The candidate-cleaning steps of `rateMessage`'s lookup fallback
(dataService.ts lines 317-320): drop one trailing bracket tag, remove all
legacy markers, trim trailing whitespace. -/
def cleanDbContent (c : List Char) : List Char :=
  trimEnd (stripLegacy (dropTrailingTagOnce c))

/-- Embedding of `rateMessage` (dataService.ts lines 299-372).
`msgId`/`msgText` are the in-memory message's fields; `recent` is the
store's response to the query for the most recent rows of the same
`(phone, role)` (newest first, limit 5), used only when `msgId` is
absent; `fetchedById` is the response to the content lookup by id, used
only when `msgId` is present. The result is the PATCH that is issued —
the record id and the re-encoded content — or `none` when no write is
performed. -/
def rateMessage (phone : String) (msgId : Option Nat) (msgText : List Char)
    (recent : List ChatRow) (fetchedById : Option (List Char))
    (rating : Option Rating) : Option (Nat × List Char) :=
  if normalizePhoneNumber phone = "00000000000" then none
  else
    let found : Option (Nat × List Char) :=
      match msgId with
      | none =>
        (recent.find? fun r => cleanDbContent r.content == msgText).map
          fun r => (r.id, r.content)
      | some i => some (i, fetchedById.getD msgText)
    match found with
    | none => none
    | some (i, originalContent) => some (i, withTag originalContent rating)

/-- C5 counterexample: for the tag-free content `"ok "` (trailing space)
the persisted assistant content is `"ok [TAG:neutral]"`, which differs
from the Tag Codec encoding `withTag "ok " neutral = "ok[TAG:neutral]"` —
`saveChatMessage` appends the tag directly without the codec's stripping
and trimming. -/
theorem saveChatMessage_cex :
    tagFree "ok ".data = true ∧
      (saveChatMessage "+79151234567" Role.model "ok ".data).map ChatPayload.content
        = some "ok [TAG:neutral]".data ∧
      withTag "ok ".data none = "ok[TAG:neutral]".data ∧
      (saveChatMessage "+79151234567" Role.model "ok ".data).map ChatPayload.content
        ≠ some (withTag "ok ".data none) := by
  decide

/-- C5 (amended): `saveChatMessage` persists, for role model (assistant),
the given text with the single bracket tag `[TAG:neutral]` appended
directly (no separating whitespace, no prior stripping) — which equals
the Tag Codec encoding with the default neutral rating exactly when the
text is tag-free with no trailing whitespace; for role user it persists
the raw text unchanged; and when the phone canonicalizes to the anonymous
sentinel `00000000000` no remote write is performed at all. -/
theorem saveChatMessage_spec :
    (∀ (phone : String) (role : Role) (content : List Char),
      normalizePhoneNumber phone = "00000000000" →
        saveChatMessage phone role content = none) ∧
      (∀ (phone : String) (content : List Char),
        normalizePhoneNumber phone ≠ "00000000000" →
          saveChatMessage phone Role.model content
            = some ⟨normalizePhoneNumber phone, Role.model, content ++ tagNeutral⟩) ∧
      (∀ (phone : String) (content : List Char),
        normalizePhoneNumber phone ≠ "00000000000" →
          saveChatMessage phone Role.user content
            = some ⟨normalizePhoneNumber phone, Role.user, content⟩) ∧
      ∀ (phone : String) (content : List Char),
        normalizePhoneNumber phone ≠ "00000000000" →
        tagFree content = true → trimEnd content = content →
          (saveChatMessage phone Role.model content).map ChatPayload.content
            = some (withTag content none) := by
  refine ⟨?_, ?_, ?_, ?_⟩
  · intro phone role content h
    rw [saveChatMessage]
    simp [h]
  · intro phone content h
    rw [saveChatMessage]
    simp [h]
  · intro phone content h
    rw [saveChatMessage]
    simp [h]
  · intro phone content h hfree htrim
    rw [saveChatMessage, withTag_eq_append_of_clean content hfree htrim none]
    simp [h]
    rfl

/-- Witness for C5: the three write behaviors evaluated concretely — the
anonymous sentinel phone suppresses the write, an assistant message gets
the direct neutral tag (equal to the codec encoding for clean text), and
a user message is persisted raw. -/
theorem saveChatMessage_spec_witness :
    saveChatMessage "abc" Role.model "hey".data = none ∧
      saveChatMessage "+79151234567" Role.model "hey".data
        = some ⟨"79151234567", Role.model, "hey".data ++ tagNeutral⟩ ∧
      saveChatMessage "+79151234567" Role.user "hey".data
        = some ⟨"79151234567", Role.user, "hey".data⟩ ∧
      (saveChatMessage "+79151234567" Role.model "hey".data).map ChatPayload.content
        = some (withTag "hey".data none) :=
  ⟨saveChatMessage_spec.1 "abc" Role.model "hey".data (by decide),
    saveChatMessage_spec.2.1 "+79151234567" "hey".data (by decide),
    saveChatMessage_spec.2.2.1 "+79151234567" "hey".data (by decide),
    saveChatMessage_spec.2.2.2 "+79151234567" "hey".data (by decide) (by decide) (by decide)⟩

/-- C6: when the message id is unknown, `rateMessage` matches the decoded
display text of each recently stored row of the same (phone, role) —
cleaned by removing a trailing bracket tag, removing all legacy markers
and trimming trailing whitespace — against the in-memory text by exact
equality; when some candidate matches, the first match is re-encoded with
the new rating and patched; when no candidate matches, no remote write is
performed (the mutation is silently dropped). -/
theorem rateMessage_unknown_id (phone : String) (msgText : List Char)
    (recent : List ChatRow) (rating : Option Rating)
    (hph : normalizePhoneNumber phone ≠ "00000000000") :
    ((∀ r ∈ recent, cleanDbContent r.content ≠ msgText) →
        rateMessage phone none msgText recent none rating = none) ∧
      ∀ r : ChatRow,
        (recent.find? fun c => cleanDbContent c.content == msgText) = some r →
          rateMessage phone none msgText recent none rating
            = some (r.id, withTag r.content rating) := by
  constructor
  · intro hnomatch
    have hfind : (recent.find? fun c => cleanDbContent c.content == msgText) = none := by
      rw [List.find?_eq_none]
      intro c hc
      simpa using hnomatch c hc
    rw [rateMessage, if_neg hph]
    simp only [hfind, Option.map_none']
  · intro r hr
    rw [rateMessage, if_neg hph]
    simp only [hr, Option.map_some']

/-- Witness for C6: with no id, a recent-row list whose single candidate
decodes to a different display text yields no write; a list whose first
candidate decodes to exactly the in-memory text yields a patch of that
row re-encoded with the new rating. -/
theorem rateMessage_unknown_id_witness :
    rateMessage "+79151234567" none "hello".data
        [⟨7, "other[TAG:neutral]".data⟩] none (some Rating.like) = none ∧
      rateMessage "+79151234567" none "hello".data
          [⟨9, "hello[TAG:dislike]".data⟩] none (some Rating.like)
        = some (9, "hello[TAG:like]".data) := by
  constructor
  · exact (rateMessage_unknown_id "+79151234567" "hello".data
      [⟨7, "other[TAG:neutral]".data⟩] (some Rating.like) (by decide)).1 (by decide)
  · have h := (rateMessage_unknown_id "+79151234567" "hello".data
      [⟨9, "hello[TAG:dislike]".data⟩] (some Rating.like) (by decide)).2
      ⟨9, "hello[TAG:dislike]".data⟩ (by decide)
    rw [h]
    decide

/-! ## Flow Controller (src/unnamed/part_000: `handleOptionSelect` lines
382-421, `handleNextStep` lines 423-438, `handlePrevStep` lines 440-448,
and the quiz buttons of `QuizContent` lines 148-181). The timer-driven
sequencing (`setTimeout` chains) is modelled by an ordered queue of
pending continuations on the state; firing the next continuation is one
step of the scheduler. -/

/-- Modelled from the spec: the `QUESTIONS` list lives in `constants.ts`,
which is not among the sources; per spec §3 it is a static, ordered,
immutable list of 32 items, and the Scoring Engine references item ids
1..32, so the item at index `i` carries id `i + 1`. Only the length and
the id at an index are used here. -/
def numQuestions : Nat := 32

/-- Modelled from the spec: `QUESTIONS[i].id` for the 32 ordered items
with ids 1..32. -/
def questionId (i : Nat) : Nat := i + 1

/-- The `ViewState` union of part_000 line 13. -/
inductive ViewState
  | welcome
  | authChoice
  | login
  | register
  | interests
  | tutorial
  | quiz
  | result
deriving DecidableEq, Repr

/-- A pending `setTimeout` continuation of the quiz flow, with the values
captured by its closure: `pulse` is the 400ms body of
`handleOptionSelect` (capturing `updatedAnswers` and the render-time
`currentStep`), `advance`/`retreat` are the 300ms step changes of the
normal transition and of `handlePrevStep`, `show100` is the 600ms body
that shatters and commits the quiz (capturing `updatedAnswers`), and
`shatterEnd` is the 1200ms transition to the result view. -/
inductive Kont
  | pulse (updatedAnswers : Answers) (capturedStep : Nat)
  | advance
  | retreat
  | show100 (updatedAnswers : Answers)
  | shatterEnd

/-- The Flow Controller state: the React state fields used by the quiz
handlers plus the queue of scheduled continuations in firing order.
`committed` abstracts the `finishQuiz` commit performed inside the
shatter phase (its full local/remote effect sequence is modelled
separately for the commit claims). -/
structure FlowState where
  view : ViewState
  currentStep : Nat
  answers : Answers
  isAnimating : Bool
  isPulsing : Bool
  isShattering : Bool
  isSending : Bool
  committed : Option ScoringResult
  timers : List Kont

/-- Embedding of `handleOptionSelect` (part_000 lines 382-421): a no-op
under any of the three guards; otherwise records the value for the
current question's id, sets the confirming guard `isPulsing`, and
schedules the 400ms pulse continuation capturing the updated answers and
the current step. -/
def handleOptionSelect (val : Int) (s : FlowState) : FlowState :=
  if s.isAnimating || s.isPulsing || s.isShattering then s
  else
    let updatedAnswers : Answers :=
      fun id => if id = questionId s.currentStep then some val else s.answers id
    { s with
        answers := updatedAnswers
        isPulsing := true
        timers := s.timers ++ [Kont.pulse updatedAnswers s.currentStep] }

/-- Embedding of `handleNextStep` (part_000 lines 423-438): a no-op when
animating, sending, shattering, or when the current question has no
recorded answer; on a non-last step it enters the advancing guard and
schedules the 300ms step increment; on the last step it reuses
`handleOptionSelect` with the recorded answer. -/
def handleNextStep (s : FlowState) : FlowState :=
  if s.isAnimating || s.isSending || s.isShattering then s
  else
    match s.answers (questionId s.currentStep) with
    | none => s
    | some currentAnswer =>
      if s.currentStep < numQuestions - 1 then
        { s with isAnimating := true, timers := s.timers ++ [Kont.advance] }
      else
        handleOptionSelect currentAnswer s

/-- Embedding of `handlePrevStep` (part_000 lines 440-448): a no-op when
animating, at step 0, or shattering; otherwise enters the advancing guard
and schedules the 300ms step decrement. -/
def handlePrevStep (s : FlowState) : FlowState :=
  if s.isAnimating || decide (s.currentStep = 0) || s.isShattering then s
  else { s with isAnimating := true, timers := s.timers ++ [Kont.retreat] }

/-- The step index passed to `QuizContent` (part_000 line 1317):
`Math.min(currentStep, QUESTIONS.length - 1)`. -/
def displayStep (s : FlowState) : Nat :=
  min s.currentStep (numQuestions - 1)

/-- An answer-selection input: the scale buttons (part_000 lines 148-154)
are disabled while `isAnimating || isPulsing`, otherwise the click
invokes `handleOptionSelect`. -/
def clickOption (val : Int) (s : FlowState) : FlowState :=
  if s.isAnimating || s.isPulsing then s else handleOptionSelect val s

/-- A manual backward-navigation input: the previous-arrow button
(part_000 lines 166-172) is disabled while
`currentStep === 0 || isAnimating || isPulsing` (on the displayed step),
otherwise the click invokes `handlePrevStep`. -/
def clickPrev (s : FlowState) : FlowState :=
  if decide (displayStep s = 0) || s.isAnimating || s.isPulsing then s
  else handlePrevStep s

/-- A manual forward-navigation input: the next-arrow button (part_000
lines 174-180) is disabled while
`currentAnswer === undefined || isSending || isAnimating || isPulsing`
(on the displayed step), otherwise the click invokes `handleNextStep`. -/
def clickNext (s : FlowState) : FlowState :=
  if (s.answers (questionId (displayStep s))).isNone || s.isSending
      || s.isAnimating || s.isPulsing then s
  else handleNextStep s

/-- Fire one scheduled continuation: the body of the corresponding
`setTimeout` callback in part_000 lines 390-420, 430-434, 443-447.
The `pulse` body branches on the captured step (`currentStep >=
QUESTIONS.length - 1`): on the last question it pins the step index at
`QUESTIONS.length`, clears the confirming guard and schedules the 600ms
show-100% continuation; otherwise it enters the advancing guard and
schedules the 300ms increment. `show100` starts the shatter, commits the
quiz result from the captured answers, and schedules the 1200ms end of
the shatter, which lands on the result view. -/
def runKont (s : FlowState) : Kont → FlowState
  | Kont.pulse ua capturedStep =>
    if capturedStep ≥ numQuestions - 1 then
      { s with
          currentStep := numQuestions
          isPulsing := false
          timers := s.timers ++ [Kont.show100 ua] }
    else
      { s with isAnimating := true, timers := s.timers ++ [Kont.advance] }
  | Kont.advance =>
    { s with currentStep := s.currentStep + 1, isAnimating := false, isPulsing := false }
  | Kont.retreat =>
    { s with currentStep := s.currentStep - 1, isAnimating := false, isPulsing := false }
  | Kont.show100 ua =>
    { s with
        isShattering := true
        committed := some (calculateResults ua)
        timers := s.timers ++ [Kont.shatterEnd] }
  | Kont.shatterEnd =>
    { s with isShattering := false, view := ViewState.result }

/-- Fire the next pending continuation, if any. -/
def fireNext (s : FlowState) : FlowState :=
  match s.timers with
  | [] => s
  | k :: rest => runKont { s with timers := rest } k

/-- Fire up to `n` pending continuations. -/
def runFor : Nat → FlowState → FlowState
  | 0, s => s
  | n + 1, s => runFor n (fireNext s)

theorem runFor_no_timers (s : FlowState) (h : s.timers = []) : ∀ n, runFor n s = s := by
  intro n
  induction n with
  | zero => rfl
  | succ m ih =>
    show runFor m (fireNext s) = s
    rw [show fireNext s = s by rw [fireNext, h]]
    exact ih

theorem foldl_clickOption_of_pulsing (s : FlowState) (h : s.isPulsing = true) :
    ∀ vs : List Int, List.foldl (fun st w => clickOption w st) s vs = s := by
  intro vs
  induction vs with
  | nil => rfl
  | cons w ws ih =>
    show List.foldl _ (clickOption w s) ws = s
    rw [show clickOption w s = s by rw [clickOption]; simp [h]]
    exact ih

/-- C7: while the confirming guard (`isPulsing`) or the advancing guard
(`isAnimating`) is set, every answer-selection input and every manual
forward or backward navigation input is an idempotent no-op — the state,
including the recorded answers, the step index and the pending timers, is
completely unchanged (selection is rejected both by the button's disabled
condition and by the handler's own guard check; navigation is rejected by
the buttons' disabled conditions). Consequently, in a burst of rapid
answer-selection inputs only the first is accepted and the rest are
no-ops, so the step index changes by at most the one scheduled
transition: after the pending timers fire, the guards are clear, the step
index has advanced exactly once, and the current question's recorded
value — which the Scoring Engine will read — is that of the last accepted
click. -/
theorem flowController_guards :
    (∀ s : FlowState, s.isPulsing = true ∨ s.isAnimating = true →
      (∀ v : Int, clickOption v s = s) ∧ clickPrev s = s ∧ clickNext s = s) ∧
      ∀ (s : FlowState) (v : Int) (vs : List Int),
        s.isAnimating = false → s.isPulsing = false → s.isShattering = false →
        s.timers = [] → s.currentStep + 1 < numQuestions →
        List.foldl (fun st w => clickOption w st) s (v :: vs) = clickOption v s ∧
          (clickOption v s).currentStep = s.currentStep ∧
          (clickOption v s).answers (questionId s.currentStep) = some v ∧
          ∀ n : Nat, 2 ≤ n →
            (runFor n (clickOption v s)).currentStep = s.currentStep + 1 ∧
              (runFor n (clickOption v s)).isPulsing = false ∧
              (runFor n (clickOption v s)).isAnimating = false ∧
              (runFor n (clickOption v s)).timers = [] ∧
              (runFor n (clickOption v s)).answers (questionId s.currentStep) = some v := by
  constructor
  · intro s h
    rcases h with h | h
    · exact ⟨fun v => by rw [clickOption]; simp [h],
        by rw [clickPrev]; simp [h], by rw [clickNext]; simp [h]⟩
    · exact ⟨fun v => by rw [clickOption]; simp [h],
        by rw [clickPrev]; simp [h], by rw [clickNext]; simp [h]⟩
  · intro s v vs h1 h2 h3 ht hstep
    have hnotlast : ¬ s.currentStep ≥ numQuestions - 1 := by
      rw [numQuestions] at hstep ⊢
      omega
    have hsel : clickOption v s
        = { s with
            answers := fun id => if id = questionId s.currentStep then some v else s.answers id
            isPulsing := true
            timers := [Kont.pulse
              (fun id => if id = questionId s.currentStep then some v else s.answers id)
              s.currentStep] } := by
      rw [clickOption, handleOptionSelect]
      simp [h1, h2, h3, ht]
    have hpulse : (clickOption v s).isPulsing = true := by rw [hsel]
    have hf1 : fireNext (clickOption v s)
        = { s with
            answers := fun id => if id = questionId s.currentStep then some v else s.answers id
            isAnimating := true
            isPulsing := true
            timers := [Kont.advance] } := by
      rw [hsel]
      show (if s.currentStep ≥ numQuestions - 1 then _ else _) = _
      rw [if_neg hnotlast]
      rfl
    have hf2 : fireNext ({ s with
            answers := fun id => if id = questionId s.currentStep then some v else s.answers id
            isAnimating := true
            isPulsing := true
            timers := [Kont.advance] } : FlowState)
        = { s with
            answers := fun id => if id = questionId s.currentStep then some v else s.answers id
            currentStep := s.currentStep + 1
            isAnimating := false
            isPulsing := false
            timers := [] } := rfl
    have hrun : ∀ k : Nat, runFor (k + 2) (clickOption v s)
        = { s with
            answers := fun id => if id = questionId s.currentStep then some v else s.answers id
            currentStep := s.currentStep + 1
            isAnimating := false
            isPulsing := false
            timers := [] } := by
      intro k
      show runFor k (fireNext (fireNext (clickOption v s))) = _
      rw [hf1, hf2]
      exact runFor_no_timers _ rfl k
    refine ⟨?_, by rw [hsel], by rw [hsel]; simp, ?_⟩
    · show List.foldl _ (clickOption v s) vs = clickOption v s
      exact foldl_clickOption_of_pulsing _ hpulse vs
    · intro n hn
      obtain ⟨k, rfl⟩ := Nat.exists_eq_add_of_le hn
      rw [Nat.add_comm 2 k, hrun k]
      exact ⟨rfl, rfl, rfl, rfl, by simp⟩

/-- A concrete mid-quiz state with the confirming guard set, for the C7
witness. -/
def pulsingState : FlowState :=
  { view := ViewState.quiz, currentStep := 3, answers := fun _ => none,
    isAnimating := false, isPulsing := true, isShattering := false,
    isSending := false, committed := none, timers := [] }

/-- The same concrete mid-quiz state with all guards clear, for the C7
witness. -/
def restingState : FlowState :=
  { pulsingState with isPulsing := false }

/-- Witness for C7: with the confirming guard set, the three inputs leave
the concrete state untouched; from the guard-free state, a burst of three
selections equals the first selection alone, and two timer firings later
the step has advanced exactly once with the first value recorded. -/
theorem flowController_guards_witness :
    (clickOption 5 pulsingState = pulsingState ∧ clickPrev pulsingState = pulsingState ∧
        clickNext pulsingState = pulsingState) ∧
      List.foldl (fun st w => clickOption w st) restingState [4, 2, 5]
          = clickOption 4 restingState ∧
      (runFor 2 (clickOption 4 restingState)).currentStep = restingState.currentStep + 1 ∧
      (runFor 2 (clickOption 4 restingState)).answers (questionId restingState.currentStep)
        = some 4 := by
  have g1 := flowController_guards.1 pulsingState (Or.inl rfl)
  have g2 := flowController_guards.2 restingState 4 [2, 5] rfl rfl rfl rfl (by decide)
  exact ⟨⟨g1.1 5, g1.2.1, g1.2.2⟩, g2.1,
    (g2.2.2.2 2 (by decide)).1, (g2.2.2.2 2 (by decide)).2.2.2.2⟩

/-- C8: in every state where the current step is the last question, an
answer is recorded for it, and `handleNextStep`'s own guard conditions
admit the call, the manual next action produces exactly the state
produced by `handleOptionSelect` on the recorded answer — the manual
next on the last question routes through the identical commit sequence
as click-selection, with no second divergent code path. -/
theorem handleNextStep_eq_handleOptionSelect (s : FlowState) (v : Int)
    (h1 : s.isAnimating = false) (h2 : s.isSending = false) (h3 : s.isShattering = false)
    (h5 : s.currentStep = numQuestions - 1)
    (h6 : s.answers (questionId s.currentStep) = some v) :
    handleNextStep s = handleOptionSelect v s := by
  rw [handleNextStep, if_neg (by simp [h1, h2, h3]), h6]
  show (if s.currentStep < numQuestions - 1 then _ else handleOptionSelect v s) = _
  rw [if_neg (by rw [h5]; omega)]

/-- A concrete state on the last question with a recorded answer, for the
C8 witness. -/
def lastStepState : FlowState :=
  { view := ViewState.quiz, currentStep := 31,
    answers := fun id => if id = 32 then some 4 else none,
    isAnimating := false, isPulsing := false, isShattering := false,
    isSending := false, committed := none, timers := [] }

/-- Witness for C8: the manual next on the concrete last-question state
equals click-selection of its recorded answer. -/
theorem handleNextStep_eq_handleOptionSelect_witness :
    handleNextStep lastStepState = handleOptionSelect 4 lastStepState :=
  handleNextStep_eq_handleOptionSelect lastStepState 4 rfl rfl rfl rfl (by decide)

/-! ## Commit of the quiz result (src/unnamed/part_000, `finishQuiz` lines
355-380) and the remote half (src/services/dataService.ts,
`saveResultToSpreadsheet` lines 119-158) -/

/-- An observable effect of `finishQuiz`, in execution order:
`setResultLocal` is the React `setResult`, `storeResultLocal` /
`storeUserLocal` / `storePhoneLocal` are the three `localStorage`
writes, `remoteUpsert` is the awaited `saveResultToSpreadsheet` call
with its outcome, `startAnalysis` launches the background narrative
generation, and `reportSaveError` is the non-blocking
`setAuthError` on a failed save. -/
inductive FinishEv
  | setSendingTrue
  | clearAuthError
  | setResultLocal (r : ScoringResult)
  | storeResultLocal (r : ScoringResult)
  | storeUserLocal
  | storePhoneLocal (p : String)
  | remoteUpsert (r : ScoringResult) (ok : Bool)
  | startAnalysis (t : String)
  | setSendingFalse
  | setResetTimer
  | reportSaveError
deriving DecidableEq, Repr

/-- Embedding of `finishQuiz` (part_000 lines 355-380) as its sequence of
observable effects, in source order; `remoteOk` is the outcome of the
awaited remote save. -/
def finishQuiz (finalAnswers : Answers) (phone : String) (remoteOk : Bool) :
    List FinishEv :=
  let finalResult := calculateResults finalAnswers
  [FinishEv.setSendingTrue, FinishEv.clearAuthError,
    FinishEv.setResultLocal finalResult,
    FinishEv.storeResultLocal finalResult,
    FinishEv.storeUserLocal,
    FinishEv.storePhoneLocal (normalizePhoneNumber phone),
    FinishEv.remoteUpsert finalResult remoteOk,
    FinishEv.startAnalysis finalResult.type,
    FinishEv.setSendingFalse, FinishEv.setResetTimer]
    ++ (if remoteOk then [] else [FinishEv.reportSaveError])

/-- The locally cached session fields affected by `finishQuiz`: the React
`result` state, the `localStorage` result entry, and whether the
non-blocking save error is currently shown. -/
structure SessionCache where
  result : Option ScoringResult
  lsResult : Option ScoringResult
  errorReported : Bool
deriving DecidableEq, Repr

/-- Interpret one `finishQuiz` effect on the local session cache. -/
def applyFinishEv (c : SessionCache) : FinishEv → SessionCache
  | FinishEv.setResultLocal r => { c with result := some r }
  | FinishEv.storeResultLocal r => { c with lsResult := some r }
  | FinishEv.clearAuthError => { c with errorReported := false }
  | FinishEv.reportSaveError => { c with errorReported := true }
  | _ => c

/-- The local session cache after a `finishQuiz` run. -/
def finishCache (finalAnswers : Answers) (phone : String) (remoteOk : Bool) :
    SessionCache :=
  (finishQuiz finalAnswers phone remoteOk).foldl applyFinishEv ⟨none, none, false⟩

/-- C9: `finishQuiz` computes the result through the Scoring Engine and
writes it, together with the profile, to local state and `localStorage`
strictly before the remote upsert is attempted; after the run the local
cache holds the computed result whatever the remote outcome was (no
rollback — no local result write or error clear occurs after the remote
attempt), and the non-blocking error is reported exactly when the remote
save failed. -/
theorem finishQuiz_commit (ans : Answers) (phone : String) (remoteOk : Bool) :
    (∃ pre post, finishQuiz ans phone remoteOk
        = pre ++ FinishEv.remoteUpsert (calculateResults ans) remoteOk :: post ∧
        FinishEv.setResultLocal (calculateResults ans) ∈ pre ∧
        FinishEv.storeResultLocal (calculateResults ans) ∈ pre ∧
        FinishEv.storeUserLocal ∈ pre ∧
        (∀ r' : ScoringResult, FinishEv.setResultLocal r' ∉ post ∧
          FinishEv.storeResultLocal r' ∉ post) ∧
        FinishEv.clearAuthError ∉ post) ∧
      (finishCache ans phone remoteOk).result = some (calculateResults ans) ∧
      (finishCache ans phone remoteOk).lsResult = some (calculateResults ans) ∧
      (finishCache ans phone remoteOk).errorReported = !remoteOk := by
  refine ⟨⟨[FinishEv.setSendingTrue, FinishEv.clearAuthError,
      FinishEv.setResultLocal (calculateResults ans),
      FinishEv.storeResultLocal (calculateResults ans),
      FinishEv.storeUserLocal, FinishEv.storePhoneLocal (normalizePhoneNumber phone)],
    [FinishEv.startAnalysis (calculateResults ans).type, FinishEv.setSendingFalse,
      FinishEv.setResetTimer] ++ (if remoteOk then [] else [FinishEv.reportSaveError]),
    ?_, ?_, ?_, ?_, ?_, ?_⟩, ?_, ?_, ?_⟩
  · rfl
  · simp
  · simp
  · simp
  · intro r'
    cases remoteOk <;> simp
  · cases remoteOk <;> simp
  · cases remoteOk <;> rfl
  · cases remoteOk <;> rfl
  · cases remoteOk <;> rfl

/-- Witness for C9: the commit evaluated on the empty answer set with a
failing remote save — the cache holds the computed result and the error
flag is set. -/
theorem finishQuiz_commit_witness :
    (finishCache (fun _ => none) "+79151234567" false).result
        = some (calculateResults (fun _ => none)) ∧
      (finishCache (fun _ => none) "+79151234567" false).errorReported = true :=
  ⟨(finishQuiz_commit (fun _ => none) "+79151234567" false).2.1,
    (finishQuiz_commit (fun _ => none) "+79151234567" false).2.2.2⟩

/-- The outcome of the `fetch` inside `saveResultToSpreadsheet`: either a
response with an HTTP status (its `ok` field is status 200-299), or an
exception reaching the catch block (network failure or serialization
error). The best-effort parse of the error body is swallowed by its own
inner catch and does not influence the returned value. -/
inductive FetchOutcome
  | response (status : Nat)
  | thrown
deriving DecidableEq, Repr

/-- Embedding of `saveResultToSpreadsheet` (dataService.ts lines 119-158)
as a function of whether the store is configured and of the fetch
outcome: missing configuration returns false; `response.ok` returns
true; otherwise the function returns exactly `status === 409`; an
exception is caught and returns false — the function is total, so no
exception propagates to the caller. -/
def saveResultToSpreadsheet (configured : Bool) (outcome : FetchOutcome) : Bool :=
  if !configured then false
  else
    match outcome with
    | FetchOutcome.response status =>
      if 200 ≤ status ∧ status ≤ 299 then true else status == 409
    | FetchOutcome.thrown => false

/-- C10: the remote result save reports success exactly for an OK
response (status 200-299) or for status 409; a missing configuration,
every other status and any caught exception yield false, and the function
is total (no exception propagates). -/
theorem saveResultToSpreadsheet_spec :
    (∀ status : Nat,
      saveResultToSpreadsheet true (FetchOutcome.response status) = true
        ↔ (200 ≤ status ∧ status ≤ 299) ∨ status = 409) ∧
      (∀ outcome : FetchOutcome, saveResultToSpreadsheet false outcome = false) ∧
      saveResultToSpreadsheet true FetchOutcome.thrown = false ∧
      saveResultToSpreadsheet true (FetchOutcome.response 409) = true ∧
      saveResultToSpreadsheet true (FetchOutcome.response 500) = false := by
  refine ⟨?_, ?_, rfl, by decide, by decide⟩
  · intro status
    by_cases h : 200 ≤ status ∧ status ≤ 299
    · simp [saveResultToSpreadsheet, h]
    · have he : saveResultToSpreadsheet true (FetchOutcome.response status)
          = (status == 409) := by
        simp [saveResultToSpreadsheet, h]
      rw [he, beq_iff_eq]
      exact ⟨Or.inr, fun hor => hor.resolve_left h⟩
  · intro outcome
    rfl

/-- Witness for C10: the conflict status 409 concretely reports
success. -/
theorem saveResultToSpreadsheet_spec_witness :
    saveResultToSpreadsheet true (FetchOutcome.response 409) = true :=
  (saveResultToSpreadsheet_spec.1 409).mpr (Or.inr rfl)
